import Mathlib

/-!
Verification of the spinbox example/template corpus.

Each section shallowly embeds one Python example file of the repository:
pure helper functions become Lean functions, in-memory state (the fake
database, the Redis cache, usage counters) becomes explicit state passing,
Python numbers become `Nat`/`Int`/`Rat`, exceptions become `Option`/`Except`,
and calls into external SDKs (OpenAI, redis-py, tiktoken, sklearn) become
function parameters or abstract inputs of the embedded operation.
-/

namespace Spinbox

/-! ## Python string helpers

`len(text)` counts code points, `text.split()` splits on runs of whitespace
discarding empty pieces. -/

/-- Whitespace characters recognised by Python's `str.split()` (ASCII part). -/
def isPySpace (c : Char) : Bool :=
  c = ' ' || c = '\t' || c = '\n' || c = '\r' || c = Char.ofNat 11 || c = Char.ofNat 12

/-- Helper for `countWords`: `inWord` records whether the previous character
was inside a word. -/
def wordsAux : Bool → List Char → Nat
  | _, [] => 0
  | inWord, c :: rest =>
    if isPySpace c then wordsAux false rest
    else (if inWord then 0 else 1) + wordsAux true rest

/-- `len(text.split())` — the number of maximal whitespace-free runs. -/
def countWords (text : String) : Nat :=
  wordsAux false text.data

/-! ## Token counting (`count_tokens` in three files)

* `ai-llm/openai/example-embeddings.py` lines 65-68: `len(text) // 4`.
* `fastapi-openai/example-embeddings-api.py` lines 192-194: `len(text) // 4`.
* `fastapi-openai/example-chat-api.py` lines 144-151: tiktoken encoding
  length, with fallback `len(text.split()) * 1.3` when
  `tiktoken.encoding_for_model` raises.
* `fastapi-openai/example-function-calling-api.py` lines 247-249:
  `len(text.split()) * 1.3` unconditionally.

The tiktoken library is modelled as an abstract encoding
`String → List Nat` (a list of token ids); `encoding_for_model` raising is
modelled by passing `none`.  Python's `int * float` produces a float,
modelled as `Rat` (the literal `1.3` as `13/10`). -/

/-- `count_tokens` of `example-embeddings.py`: `len(text) // 4`. -/
def embCountTokens (text : String) : Nat :=
  text.length / 4

/-- `count_tokens` of `example-embeddings-api.py`: `len(text) // 4`. -/
def embApiCountTokens (text : String) : Nat :=
  text.length / 4

/-- `count_tokens` of `example-chat-api.py`.  `enc` is the result of
`tiktoken.encoding_for_model(model)`: `some e` when it succeeds with
encoding function `e`, `none` when it raises and the fallback estimation
runs. -/
def chatCountTokens (enc : Option (String → List Nat)) (text : String) : Rat :=
  match enc with
  | some e => ((e text).length : Rat)
  | none => (countWords text : Rat) * (13 / 10)

/-- `count_tokens` of `example-function-calling-api.py`:
`len(text.split()) * 1.3`, unconditionally. -/
def funcCountTokens (text : String) : Rat :=
  (countWords text : Rat) * (13 / 10)

/-- A lossless tokenizer: the token pieces concatenate back to the input.
Real tiktoken encodings are of this kind (`decode(encode(t)) == t`). -/
def IsTokenization (pieces : String → List String) : Prop :=
  ∀ t, String.join (pieces t) = t

/-- The spec's reading of "token counting directly delegates to tiktoken":
the counting function is the length of some lossless tokenization of the
input. -/
def DelegatesToTiktoken (f : String → Nat) : Prop :=
  ∃ pieces, IsTokenization pieces ∧ ∀ t, f t = (pieces t).length

/-! ## `calculate_cost` of `example-chat-api.py` (lines 153-161) -/

/-- The pricing dict of `example-chat-api.py`, as an association list
(per 1K tokens). -/
def chatPricing : List (String × Rat) :=
  [("gpt-4", 3 / 100), ("gpt-4-turbo", 1 / 100), ("gpt-3.5-turbo", 2 / 1000)]

/-- Python `dict.get(key, default)`. -/
def dictGetD (l : List (String × Rat)) (key : String) (dflt : Rat) : Rat :=
  match l with
  | [] => dflt
  | (k, v) :: rest => if key = k then v else dictGetD rest key dflt

/-- `calculate_cost(tokens, model)` of `example-chat-api.py`:
`(tokens / 1000) * pricing.get(model, 0.03)`. -/
def calculate_cost (tokens : Rat) (model : String) : Rat :=
  (tokens / 1000) * dictGetD chatPricing model (3 / 100)

/-- The claimed pricing table, written independently of the dict lookup. -/
def specRate (model : String) : Rat :=
  if model = "gpt-4" then 3 / 100
  else if model = "gpt-4-turbo" then 1 / 100
  else if model = "gpt-3.5-turbo" then 2 / 1000
  else 3 / 100

/-! ## HTTP error paths (C2)

`HTTPException(status_code=..., detail=...)` is modelled as a value of
`HTTPErr`; a function that may raise it returns `Except HTTPErr`. -/

structure HTTPErr where
  status : Nat
  detail : String
deriving DecidableEq

/-- The `except Exception as e: raise HTTPException(status_code=500,
detail=str(e))` conversion used around the OpenAI SDK calls in
`example-chat-api.py` (lines 301-303, 374-376, 436-438). -/
def sdkCatchToHTTP (excText : String) : HTTPErr :=
  ⟨500, excText⟩

/-- The `except Exception as e: raise HTTPException(status_code=400,
detail=f"Error processing file: ...")` conversion around the langchain
`loader.load()` call in `example-rag-system.py` (lines 189-191) and around
the pandas parsing in `example-data-analysis-api.py` (lines 319-321): an
SDK-call catch that converts to HTTP 400 carrying the exception string. -/
def sdkCatchToHTTP400 (excText : String) : HTTPErr :=
  ⟨400, "Error processing file: " ++ excText⟩

/-- `check_daily_budget` of `example-chat-api.py` (lines 188-196).
`recordedCost` is `usage_stats[client_ip]["total_cost"]` when the client ip
has stats, `none` otherwise.  Python floats are modelled as `Rat`, and the
f-string rendering of the float `settings.daily_budget` inside the 402
detail is abstracted into the parameter `fmt` (Python's `str()` on that
float). -/
def check_daily_budget (fmt : Rat → String) (recordedCost : Option Rat)
    (dailyBudget estimatedCost : Rat) : Except HTTPErr Unit :=
  match recordedCost with
  | none => .ok ()
  | some current =>
    if dailyBudget < current + estimatedCost then
      .error ⟨402, "Daily budget of $" ++ fmt dailyBudget ++ " exceeded"⟩
    else
      .ok ()

/-- `get_cache_manager` of `example-caching-api.py` (lines 387-390): raises
`HTTPException(503, "Redis not available")` when the cache manager is
`None`. -/
def get_cache_manager {α : Type} (cm : Option α) : Except HTTPErr α :=
  match cm with
  | none => .error ⟨503, "Redis not available"⟩
  | some c => .ok c

/-! ## `get_cache_stats` of `example-caching-api.py` (lines 407-434) -/

/-- The `hit_rate` computed by `get_cache_stats`:
`hits / total_requests if total_requests > 0 else 0` where
`total_requests = hits + misses`. -/
def hitRate (hits misses : Nat) : Rat :=
  if hits + misses > 0 then (hits : Rat) / ((hits : Rat) + (misses : Rat)) else 0

/-! ## A model of Python JSON values and of `json.dumps` / `json.loads`

`example-caching.py` serialises dict/list values with `json.dumps` and
deserialises with `json.loads`.  `J` is the universe of JSON-serialisable
Python values handled by those calls (floats are out of scope of every
claim and are omitted).  `printVal` mirrors `json.dumps` with its default
separators `", "` and `": "`; `parseValF` is a fuel-indexed
recursive-descent reading of `json.loads` (`decode_responses=True`, strict
mode: unescaped control characters are rejected). -/

inductive J where
  | null : J
  | bool (b : Bool) : J
  | int (n : Int) : J
  | str (s : String) : J
  | arr (elems : List J) : J
  | obj (members : List (String × J)) : J

/-- Decimal digits of `n`, most significant first (`"0"` for `0`). -/
def natChars (n : Nat) : List Char :=
  if n = 0 then ['0'] else ((Nat.digits 10 n).reverse).map Nat.digitChar

/-- Python `str(n)` / the JSON form of an integer. -/
def intChars (n : Int) : List Char :=
  if n < 0 then '-' :: natChars n.natAbs else natChars n.natAbs

/-- A hexadecimal digit (lowercase), as `json.dumps` emits in `\uXXXX`. -/
def hexChar (n : Nat) : Char :=
  Nat.digitChar n

/-- How `json.dumps` escapes one character inside a string literal. -/
def escapeChar (c : Char) : List Char :=
  if c = '"' then ['\\', '"']
  else if c = '\\' then ['\\', '\\']
  else if c = '\n' then ['\\', 'n']
  else if c = '\t' then ['\\', 't']
  else if c = '\r' then ['\\', 'r']
  else if c.toNat = 8 then ['\\', 'b']
  else if c.toNat = 12 then ['\\', 'f']
  else if c.toNat < 32 then ['\\', 'u', '0', '0', hexChar (c.toNat / 16), hexChar (c.toNat % 16)]
  else [c]

/-- The JSON string literal for `s` (quotes included). -/
def strChars (s : String) : List Char :=
  '"' :: (s.data.map escapeChar).flatten ++ ['"']

mutual

/-- `json.dumps` with the default separators. -/
def printVal : J → List Char
  | .null => ("null" : String).data
  | .bool true => ("true" : String).data
  | .bool false => ("false" : String).data
  | .int n => intChars n
  | .str s => strChars s
  | .arr [] => ['[', ']']
  | .arr (v :: vs) => '[' :: (printVal v ++ printArrRest vs ++ [']'])
  | .obj [] => ['{', '}']
  | .obj (m :: ms) => '{' :: (printMember m ++ printObjRest ms ++ ['}'])

/-- The remaining elements of a JSON array, each preceded by `", "`. -/
def printArrRest : List J → List Char
  | [] => []
  | v :: vs => ',' :: ' ' :: (printVal v ++ printArrRest vs)

/-- One `"key": value` member of a JSON object. -/
def printMember : String × J → List Char
  | (k, v) => strChars k ++ ':' :: ' ' :: printVal v

/-- The remaining members of a JSON object, each preceded by `", "`. -/
def printObjRest : List (String × J) → List Char
  | [] => []
  | m :: ms => ',' :: ' ' :: (printMember m ++ printObjRest ms)

end

/-- JSON whitespace (as accepted between tokens by `json.loads`). -/
def isJsonWs (c : Char) : Bool :=
  c = ' ' || c = '\t' || c = '\n' || c = '\r'

/-- Skip JSON whitespace. -/
def skipWs (cs : List Char) : List Char :=
  cs.dropWhile isJsonWs

/-- Value of one hexadecimal digit, if any. -/
def hexVal (c : Char) : Option Nat :=
  if '0' ≤ c ∧ c ≤ '9' then some (c.toNat - 48)
  else if 'a' ≤ c ∧ c ≤ 'f' then some (c.toNat - 87)
  else if 'A' ≤ c ∧ c ≤ 'F' then some (c.toNat - 55)
  else none

/-- Parse the body of a JSON string literal after the opening quote,
returning the decoded characters and the input after the closing quote.
The fuel only serves termination: one unit covers one decoded character,
so any amount above the decoded length gives the same result. -/
def parseStrBody : Nat → List Char → Option (List Char × List Char)
  | 0, _ => none
  | _ + 1, [] => none
  | fuel + 1, c :: rest =>
    if c = '"' then some ([], rest)
    else if c = '\\' then
      match rest with
      | [] => none
      | e :: r =>
        if e = '"' then (parseStrBody fuel r).map (fun p => ('"' :: p.1, p.2))
        else if e = '\\' then (parseStrBody fuel r).map (fun p => ('\\' :: p.1, p.2))
        else if e = '/' then (parseStrBody fuel r).map (fun p => ('/' :: p.1, p.2))
        else if e = 'b' then (parseStrBody fuel r).map (fun p => (Char.ofNat 8 :: p.1, p.2))
        else if e = 'f' then (parseStrBody fuel r).map (fun p => (Char.ofNat 12 :: p.1, p.2))
        else if e = 'n' then (parseStrBody fuel r).map (fun p => ('\n' :: p.1, p.2))
        else if e = 'r' then (parseStrBody fuel r).map (fun p => ('\r' :: p.1, p.2))
        else if e = 't' then (parseStrBody fuel r).map (fun p => ('\t' :: p.1, p.2))
        else if e = 'u' then
          match r with
          | h1 :: h2 :: h3 :: h4 :: r2 =>
            (match hexVal h1, hexVal h2, hexVal h3, hexVal h4 with
             | some a, some b, some c2, some d =>
               (parseStrBody fuel r2).map
                 (fun p => (Char.ofNat (a * 4096 + b * 256 + c2 * 16 + d) :: p.1, p.2))
             | _, _, _, _ => none)
          | _ => none
        else none
    else if c.toNat < 32 then none
    else (parseStrBody fuel rest).map (fun p => (c :: p.1, p.2))

/-- Decimal value of a run of digit characters. -/
def digitsVal (ds : List Char) : Nat :=
  ds.foldl (fun acc c => 10 * acc + (c.toNat - 48)) 0

/-- Parse a nonempty run of decimal digits. -/
def parseNatRun (cs : List Char) : Option (Nat × List Char) :=
  let ds := cs.takeWhile Char.isDigit
  if ds.isEmpty then none else some (digitsVal ds, cs.dropWhile Char.isDigit)

/-- Parse a JSON integer (an optional minus sign and digits). -/
def parseIntChars (cs : List Char) : Option (Int × List Char) :=
  match cs with
  | '-' :: rest => (parseNatRun rest).map (fun p => (-(p.1 : Int), p.2))
  | _ => (parseNatRun cs).map (fun p => ((p.1 : Int), p.2))

mutual

/-- Fuel-indexed recursive-descent parser for one JSON value (a model of
`json.loads`; the fuel only serves termination and any sufficiently large
amount gives the same result). -/
def parseValF : Nat → List Char → Option (J × List Char)
  | 0, _ => none
  | fuel + 1, cs =>
    match skipWs cs with
    | [] => none
    | c :: rest =>
      if c = 'n' then
        match rest with
        | 'u' :: 'l' :: 'l' :: r => some (.null, r)
        | _ => none
      else if c = 't' then
        match rest with
        | 'r' :: 'u' :: 'e' :: r => some (.bool true, r)
        | _ => none
      else if c = 'f' then
        match rest with
        | 'a' :: 'l' :: 's' :: 'e' :: r => some (.bool false, r)
        | _ => none
      else if c = '"' then
        (parseStrBody fuel rest).map (fun p => (.str (String.mk p.1), p.2))
      else if c = '[' then
        match skipWs rest with
        | ']' :: r => some (.arr [], r)
        | _ =>
          match parseValF fuel rest with
          | none => none
          | some (v, r1) =>
            match parseArrTailF fuel r1 with
            | none => none
            | some (vs, r2) => some (.arr (v :: vs), r2)
      else if c = '{' then
        match skipWs rest with
        | '}' :: r => some (.obj [], r)
        | _ =>
          match parseMemberF fuel rest with
          | none => none
          | some (m, r1) =>
            match parseObjTailF fuel r1 with
            | none => none
            | some (ms, r2) => some (.obj (m :: ms), r2)
      else if c = '-' ∨ c.isDigit then
        (parseIntChars (c :: rest)).map (fun p => (.int p.1, p.2))
      else none

/-- After the first array element: `", elem ... ]"` or `"]"`. -/
def parseArrTailF : Nat → List Char → Option (List J × List Char)
  | 0, _ => none
  | fuel + 1, cs =>
    match skipWs cs with
    | ']' :: r => some ([], r)
    | ',' :: r =>
      match parseValF fuel r with
      | none => none
      | some (v, r1) =>
        match parseArrTailF fuel r1 with
        | none => none
        | some (vs, r2) => some (v :: vs, r2)
    | _ => none

/-- One `"key": value` object member. -/
def parseMemberF : Nat → List Char → Option ((String × J) × List Char)
  | 0, _ => none
  | fuel + 1, cs =>
    match skipWs cs with
    | '"' :: r =>
      match parseStrBody fuel r with
      | none => none
      | some (key, r1) =>
        match skipWs r1 with
        | ':' :: r2 =>
          match parseValF fuel r2 with
          | none => none
          | some (v, r3) => some ((String.mk key, v), r3)
        | _ => none
    | _ => none

/-- After the first object member: `", member ... }"` or `"}"`. -/
def parseObjTailF : Nat → List Char → Option (List (String × J) × List Char)
  | 0, _ => none
  | fuel + 1, cs =>
    match skipWs cs with
    | '}' :: r => some ([], r)
    | ',' :: r =>
      match parseMemberF fuel r with
      | none => none
      | some (m, r1) =>
        match parseObjTailF fuel r1 with
        | none => none
        | some (ms, r2) => some (m :: ms, r2)
    | _ => none

end

/-- `json.loads` on a character list: parse one value and require only
whitespace to remain. -/
def loadsChars (cs : List Char) : Option J :=
  match parseValF (cs.length + 1) cs with
  | some (v, rest) => if skipWs rest = [] then some v else none
  | none => none

/-- `json.loads` on a string. -/
def loads (s : String) : Option J :=
  loadsChars s.data

/-- `json.dumps` on a value, as a string. -/
def dumps (v : J) : String :=
  String.mk (printVal v)

/-- The input does not begin with a decimal digit (so that a parsed number
cannot spill into it). -/
def noLeadDigit : List Char → Prop
  | [] => True
  | c :: _ => c.isDigit = false

mutual

/-- Fuel sufficient for `parseValF` to parse the printed form of a value. -/
def needV : J → Nat
  | .null => 1
  | .bool _ => 1
  | .int _ => 1
  | .str s => 2 + s.data.length
  | .arr [] => 1
  | .arr (v :: vs) => 1 + needV v + needArr vs
  | .obj [] => 1
  | .obj (m :: ms) => 1 + needMem m + needObj ms

/-- Fuel sufficient for `parseArrTailF` on the printed remaining elements. -/
def needArr : List J → Nat
  | [] => 1
  | v :: vs => 1 + needV v + needArr vs

/-- Fuel sufficient for `parseMemberF` on a printed member. -/
def needMem : String × J → Nat
  | (k, v) => 2 + k.data.length + needV v

/-- Fuel sufficient for `parseObjTailF` on the printed remaining members. -/
def needObj : List (String × J) → Nat
  | [] => 1
  | m :: ms => 1 + needMem m + needObj ms

end

/-! ## Association lists (Python dicts / the Redis keyspace) -/

/-- Lookup in an association list (Python `d.get(k)` / `d[k]`). -/
def alookup {κ α : Type} [DecidableEq κ] (k : κ) : List (κ × α) → Option α
  | [] => none
  | (k', v) :: t => if k = k' then some v else alookup k t

/-- Overwrite-or-append (Python `d[k] = v` / Redis `SET`): an existing key
keeps its position, a new key is appended. -/
def ainsert {κ α : Type} [DecidableEq κ] (k : κ) (v : α) : List (κ × α) → List (κ × α)
  | [] => [(k, v)]
  | (k', v') :: t => if k = k' then (k, v) :: t else (k', v') :: ainsert k v t

/-- Remove a key (Python `del d[k]` / Redis `DEL`). -/
def aerase {κ α : Type} [DecidableEq κ] (k : κ) : List (κ × α) → List (κ × α)
  | [] => []
  | (k', v) :: t => if k' = k then aerase k t else (k', v) :: aerase k t

/-! ## `RedisCache` of `core-components/redis/example-caching.py`

Two views of the wrapper are embedded.

For the error-handling claim, each operation is a function of the raw
redis-py client call's outcome, an `Except String` value (`.error e` models
the client raising an exception with text `e`).  Each wrapper method makes
exactly one client call and has no retry loop, so a single outcome value
determines the result; the wrapper object itself carries only the
connection configuration and is never mutated.

For the round-trip claim, a working Redis with `decode_responses=True` is
modelled as an association list from keys to stored strings. -/

/-- `RedisCache.set` (lines 60-77), given the outcome of the single
`client.set`/`client.setex` call: `bool(result)` on success, `False` when
the call raised. -/
def rcSet (callResult : Except String Bool) : Bool :=
  match callResult with
  | .ok b => b
  | .error _ => false

/-- `RedisCache.get` (lines 79-95), given the outcome of the single
`client.get` call (`.ok none` = key absent): deserialised value on
success, `None` when the call raised. -/
def rcGet (callResult : Except String (Option String)) : Option J :=
  match callResult with
  | .ok none => none
  | .ok (some s) =>
    match loads s with
    | some v => some v
    | none => some (.str s)
  | .error _ => none

/-- `RedisCache.exists` (lines 97-103): `bool(client.exists(key))`, `False`
when the call raised. -/
def rcExists (callResult : Except String Nat) : Bool :=
  match callResult with
  | .ok n => n ≠ 0
  | .error _ => false

/-- `RedisCache.delete` (lines 105-112): `bool(client.delete(key))`,
`False` when the call raised. -/
def rcDelete (callResult : Except String Nat) : Bool :=
  match callResult with
  | .ok n => n ≠ 0
  | .error _ => false

/-- `RedisCache.increment` (lines 114-120): the new value, `None` when the
call raised. -/
def rcIncrement (callResult : Except String Int) : Option Int :=
  match callResult with
  | .ok n => some n
  | .error _ => none

/-- `RedisCache.expire` (lines 122-128): `bool(client.expire(key, ttl))`,
`False` when the call raised. -/
def rcExpire (callResult : Except String Bool) : Bool :=
  match callResult with
  | .ok b => b
  | .error _ => false

/-- `RedisCache.ttl` (lines 130-137): the TTL when nonnegative, `None` for
the negative sentinels and `None` when the call raised. -/
def rcTtl (callResult : Except String Int) : Option Int :=
  match callResult with
  | .ok t => if 0 ≤ t then some t else none
  | .error _ => none

/-- `RedisCache.flush_db` (lines 139-145): `bool(client.flushdb())`,
`False` when the call raised. -/
def rcFlushDb (callResult : Except String Bool) : Bool :=
  match callResult with
  | .ok b => b
  | .error _ => false

/-- The six fields `RedisCache.get_info` (lines 147-161) extracts from
`client.info()`. -/
def rcInfoFields : List String :=
  ["redis_version", "used_memory_human", "connected_clients",
   "total_commands_processed", "keyspace_hits", "keyspace_misses"]

/-- `RedisCache.get_info`: the six extracted fields on success (each
`info.get(k)`, hence `Option`-valued), the empty dict when the call
raised. -/
def rcGetInfo (callResult : Except String (List (String × J))) : List (String × Option J) :=
  match callResult with
  | .ok info => rcInfoFields.map (fun k => (k, alookup k info))
  | .error _ => []

/-- The keyspace of a working Redis database with `decode_responses=True`. -/
def RStore : Type :=
  List (String × List Char)

/-- How `RedisCache.set` turns a value into the stored string:
`json.dumps(value)` for dicts and lists, the string itself for strings,
`str(value)` for ints; redis-py raises `DataError` for booleans and
`None`. -/
def serializeValue : J → Option (List Char)
  | .obj ms => some (printVal (.obj ms))
  | .arr vs => some (printVal (.arr vs))
  | .str s => some s.data
  | .int n => some (intChars n)
  | .bool _ => none
  | .null => none

/-- `RedisCache.set` against a working store (TTL expiry out of scope):
returns the new store and the method's boolean result. -/
def rsetStore (st : RStore) (key : String) (value : J) : RStore × Bool :=
  match serializeValue value with
  | some s => (ainsert key s st, true)
  | none => (st, false)

/-- `RedisCache.get` against a working store: `json.loads` of the stored
string when it parses, the raw string otherwise. -/
def rgetStore (st : RStore) (key : String) : Option J :=
  match alookup key st with
  | none => none
  | some s =>
    match loadsChars s with
    | some v => some v
    | none => some (.str (String.mk s))

/-- Values for which `isinstance(value, (dict, list))` holds. -/
def isDictOrList : J → Bool
  | .obj _ => true
  | .arr _ => true
  | _ => false

/-! ## The cache-aside service of `fastapi-redis/example-caching-api.py`

`fake_database` is the in-memory dict of lines 79-90; `DatabaseService`
(lines 297-381) wraps it with the Redis cache.  The cache is modelled at
the `CacheManager` API level: a map from logical keys to the cached JSON
values (C9 establishes that the store/parse round trip behind it is the
identity for dicts and lists, and TTL expiry is out of scope of the
claim).  Python objects (user and post dicts) are association lists of JSON
values. -/

/-- A Python dict with string keys (a user or post record). -/
def Obj : Type :=
  List (String × J)

/-- A value held by the cache of `example-caching-api.py`: a single record
(`user:{id}`) or a list of records (`users:all`, `user:{id}:posts`). -/
inductive CVal where
  | one (o : Obj) : CVal
  | many (l : List Obj) : CVal

/-- Truthiness of a cached value (`if cached_user:` in the source): an
empty dict or list is falsy. -/
def CVal.truthy : CVal → Bool
  | .one o => !o.isEmpty
  | .many l => !l.isEmpty

/-- The joint state: the `users` and `posts` tables of `fake_database` and
the Redis cache. -/
structure DBState where
  users : List (String × Obj)
  posts : List (String × Obj)
  cache : List (String × CVal)

/-- The cache key `f"user:{user_id}"`. -/
def kUser (id : String) : String :=
  "user:" ++ id

/-- The cache key `f"user:{user_id}:posts"`. -/
def kPosts (id : String) : String :=
  "user:" ++ id ++ ":posts"

/-- The cache key `"users:all"`. -/
def kUsersAll : String :=
  "users:all"

/-- `DatabaseService.get_user` (lines 301-321): return the cached record if
truthy, otherwise read the database and cache a found record. -/
def get_user (uid : String) (s : DBState) : DBState :=
  let hit := match alookup (kUser uid) s.cache with
             | some v => v.truthy
             | none => false
  if hit then s
  else
    match alookup uid s.users with
    | some u => { s with cache := ainsert (kUser uid) (.one u) s.cache }
    | none => s

/-- `DatabaseService.get_all_users` (lines 323-343): return the cached list
if truthy, otherwise cache `list(fake_database["users"].values())`. -/
def get_all_users (s : DBState) : DBState :=
  let hit := match alookup kUsersAll s.cache with
             | some v => v.truthy
             | none => false
  if hit then s
  else { s with cache := ainsert kUsersAll (.many (s.users.map Prod.snd)) s.cache }

/-- Python `post["user_id"] == user_id` for a post record. -/
def postBelongsTo (uid : String) (p : Obj) : Bool :=
  match alookup "user_id" p with
  | some (.str s) => s = uid
  | _ => false

/-- `DatabaseService.get_user_posts` (lines 345-365): return the cached
list if truthy, otherwise cache the posts whose `user_id` matches. -/
def get_user_posts (uid : String) (s : DBState) : DBState :=
  let hit := match alookup (kPosts uid) s.cache with
             | some v => v.truthy
             | none => false
  if hit then s
  else
    { s with
      cache := ainsert (kPosts uid)
        (.many ((s.posts.map Prod.snd).filter (postBelongsTo uid))) s.cache }

/-- Python `dict.update`: existing keys keep their position with the new
value, new keys are appended in order. -/
def mergeObj (u d : Obj) : Obj :=
  u.map (fun p => (p.1, (alookup p.1 d).getD p.2)) ++
    d.filter (fun p => (alookup p.1 u).isNone)

/-- `DatabaseService.update_user` (lines 367-381): merge the update into
the record if the user exists, then delete the cache keys `user:{id}` and
`users:all`. -/
def update_user (uid : String) (data : Obj) (s : DBState) : DBState :=
  match alookup uid s.users with
  | none => s
  | some u =>
    { users := ainsert uid (mergeObj u data) s.users
      posts := s.posts
      cache := aerase kUsersAll (aerase (kUser uid) s.cache) }

/-- One API-level operation of the caching service. -/
inductive DBOp where
  | getUser (uid : String) : DBOp
  | getAllUsers : DBOp
  | getUserPosts (uid : String) : DBOp
  | updateUser (uid : String) (data : Obj) : DBOp

/-- Run one operation. -/
def stepOp (s : DBState) : DBOp → DBState
  | .getUser uid => get_user uid s
  | .getAllUsers => get_all_users s
  | .getUserPosts uid => get_user_posts uid s
  | .updateUser uid data => update_user uid data s

/-- The user record `"1"` of `fake_database`. -/
def userRec1 : Obj :=
  [("id", .str "1"), ("name", .str "John Doe"),
   ("email", .str "john@example.com"), ("age", .int 30)]

/-- The user record `"2"` of `fake_database`. -/
def userRec2 : Obj :=
  [("id", .str "2"), ("name", .str "Jane Smith"),
   ("email", .str "jane@example.com"), ("age", .int 25)]

/-- The user record `"3"` of `fake_database`. -/
def userRec3 : Obj :=
  [("id", .str "3"), ("name", .str "Bob Johnson"),
   ("email", .str "bob@example.com"), ("age", .int 35)]

/-- The post record `"1"` of `fake_database`. -/
def postRec1 : Obj :=
  [("id", .str "1"), ("title", .str "First Post"),
   ("content", .str "This is the first post"), ("user_id", .str "1")]

/-- The post record `"2"` of `fake_database`. -/
def postRec2 : Obj :=
  [("id", .str "2"), ("title", .str "Second Post"),
   ("content", .str "This is the second post"), ("user_id", .str "2")]

/-- The post record `"3"` of `fake_database`. -/
def postRec3 : Obj :=
  [("id", .str "3"), ("title", .str "Third Post"),
   ("content", .str "This is the third post"), ("user_id", .str "1")]

/-- The initial `fake_database["users"]` (lines 80-84). -/
def initUsers : List (String × Obj) :=
  [("1", userRec1), ("2", userRec2), ("3", userRec3)]

/-- The initial `fake_database["posts"]` (lines 85-89). -/
def initPosts : List (String × Obj) :=
  [("1", postRec1), ("2", postRec2), ("3", postRec3)]

/-- The service's start state: the initial database and an empty cache. -/
def initState : DBState :=
  ⟨initUsers, initPosts, []⟩

/-- Run a sequence of operations from the start state. -/
def runOps (ops : List DBOp) : DBState :=
  ops.foldl stepOp initState

/-- The coherence invariant of claim C4, restricted to ids without a
colon: any cache entry under the key `user:{id}` is the user record the
database holds for `id`. -/
def CacheCoherent (s : DBState) : Prop :=
  ∀ id v, ':' ∉ id.data → alookup (kUser id) s.cache = some v →
    ∃ u, alookup id s.users = some u ∧ v = .one u

/-! ## `find_most_similar` of `ai-llm/openai/example-embeddings.py`
(lines 233-268)

`get_embedding` (networked OpenAI call plus its local cache) is abstracted
into `emb : String → Except String (List Rat)`, `.error e` being the
`{"error": e, ...}` dictionary it returns on failure; the single
`sklearn.metrics.pairwise.cosine_similarity` library call is abstracted
into `sim`. -/

/-- One element of `find_most_similar`'s result list: a document entry or
the error dictionary. -/
inductive FMSResult where
  | ok (document : String) (similarity : Rat) (index : Nat) : FMSResult
  | err (msg : String) : FMSResult
deriving DecidableEq

/-- The similarity recorded in a result entry (0 for the error entry). -/
def FMSResult.simval : FMSResult → Rat
  | .ok _ s _ => s
  | .err _ => 0

/-- The descending-similarity comparison used for
`results.sort(key=lambda x: x["similarity"], reverse=True)`. -/
def simGE (a b : String × Rat × Nat) : Prop :=
  b.2.1 ≤ a.2.1

instance : DecidableRel simGE := fun a b => inferInstanceAs (Decidable (b.2.1 ≤ a.2.1))

instance : IsTotal (String × Rat × Nat) simGE :=
  ⟨fun a b => le_total b.2.1 a.2.1⟩

instance : IsTrans (String × Rat × Nat) simGE :=
  ⟨fun _ _ _ h1 h2 => le_trans h2 h1⟩

/-- `find_most_similar(query, documents, top_k)`. -/
def find_most_similar (emb : String → Except String (List Rat))
    (sim : List Rat → List Rat → Rat)
    (query : String) (documents : List String) (top_k : Nat) : List FMSResult :=
  match emb query with
  | .error e => [.err ("Failed to get query embedding: " ++ e)]
  | .ok qv =>
    let entries := documents.enum.filterMap
      (fun p =>
        match emb p.2 with
        | .error _ => none
        | .ok dv => some (p.2, sim qv dv, p.1))
    ((List.insertionSort simGE entries).take top_k).map
      (fun e => .ok e.1 e.2.1 e.2.2)

/-! # Theorems -/

/-! ## C1 — token counting and tiktoken -/

/-- `len(text) // 4` is not the length of any lossless tokenization: on the
one-character text `"a"` it yields `0` tokens. -/
theorem embCountTokens_no_tokenization (pieces : String → List String)
    (htok : IsTokenization pieces) :
    ¬ (∀ t, embCountTokens t = (pieces t).length) := by
  intro heq
  have h0 : embCountTokens "a" = 0 := rfl
  have hlen : (pieces "a").length = 0 := by
    have := heq "a"
    omega
  have hnil : pieces "a" = [] := List.eq_nil_of_length_eq_zero hlen
  have hjoin := htok "a"
  rw [hnil] at hjoin
  simp [String.join] at hjoin

/-- C1 counterexample: the claim says every `count_tokens` returns the
length of the tiktoken encoding of the text, but `count_tokens` of
`example-embeddings.py` is the estimation `len(text) // 4` (the file does
not even import tiktoken), which cannot be the token count of any lossless
tokenizer. -/
theorem c1_count_tokens_not_all_tiktoken : ¬ DelegatesToTiktoken embCountTokens := by
  rintro ⟨pieces, htok, heq⟩
  exact embCountTokens_no_tokenization pieces htok heq

/-- C1 amended: only the chat API's `count_tokens` returns the tiktoken
encoding length (when `tiktoken.encoding_for_model` succeeds); the
embeddings client and the embeddings API both use the estimation
`len(text) // 4`, which is not the length of any lossless tokenization. -/
theorem c1_count_tokens_delegation_amended :
    (∀ (e : String → List Nat) (t : String),
        chatCountTokens (some e) t = ((e t).length : Rat)) ∧
    (∀ t, embApiCountTokens t = embCountTokens t) ∧
    (∀ pieces, IsTokenization pieces →
        ¬ (∀ t, embCountTokens t = (pieces t).length)) := by
  refine ⟨fun e t => rfl, fun t => rfl, ?_⟩
  exact embCountTokens_no_tokenization

/-- C1 witness: the amended statement applied to the concrete encoding
`fun t => [t.length]` and to the concrete lossless tokenizer
`fun t => [t]`. -/
theorem c1_count_tokens_delegation_witness :
    chatCountTokens (some (fun t => [t.length])) "ab" = 1 ∧
    ¬ (∀ t, embCountTokens t = ((fun t : String => [t]) t).length) := by
  constructor
  · have h := c1_count_tokens_delegation_amended.1 (fun t => [t.length]) "ab"
    simpa using h
  · exact c1_count_tokens_delegation_amended.2.2 (fun t => [t])
      (fun t => by simp [String.join])

/-! ## C2 — HTTP statuses on error paths -/

/-- C2 counterexample: the claim says no error path produces a status code
other than 500 or 400, but `get_cache_manager` of `example-caching-api.py`
raises `HTTPException(503, "Redis not available")` when Redis is
unavailable. -/
theorem c2_error_status_counterexample :
    get_cache_manager (α := Unit) none = .error ⟨503, "Redis not available"⟩ ∧
    (503 : Nat) ≠ 500 ∧ (503 : Nat) ≠ 400 :=
  ⟨rfl, by decide, by decide⟩

/-- C2 amended: whenever an exception is caught around an SDK call it is
converted either to a printed message or to an HTTP response whose status
code is 500 or 400 and whose detail carries the exception string — the
chat API's catches convert to 500 with `str(e)`, and the RAG system's and
data-analysis API's catches convert to 400 with the exception string in
the detail; but other (non-SDK-catch) error paths produce further status
codes: `check_daily_budget` raises 402 with the daily budget in the
detail, and `get_cache_manager` raises 503 when Redis is unavailable
(besides the 404s for missing resources). -/
theorem c2_error_status_amended :
    (∀ excText, sdkCatchToHTTP excText = ⟨500, excText⟩) ∧
    (∀ excText, sdkCatchToHTTP400 excText =
        ⟨400, "Error processing file: " ++ excText⟩) ∧
    (∀ (fmt : Rat → String) (cur budget est : Rat), budget < cur + est →
        check_daily_budget fmt (some cur) budget est =
          .error ⟨402, "Daily budget of $" ++ fmt budget ++ " exceeded"⟩) ∧
    get_cache_manager (α := Unit) none = .error ⟨503, "Redis not available"⟩ := by
  refine ⟨fun e => rfl, fun e => rfl, fun fmt cur budget est h => ?_, rfl⟩
  simp [check_daily_budget, h]

/-- C2 witness: a client with $10 recorded cost and a $1 estimate against a
$10 daily budget is rejected with status 402 and the budget interpolated
into the detail. -/
theorem c2_error_status_witness :
    check_daily_budget (fun _ => "10.0") (some 10) 10 1 =
      .error ⟨402, "Daily budget of $10.0 exceeded"⟩ :=
  c2_error_status_amended.2.2.1 (fun _ => "10.0") 10 10 1 (by norm_num)

/-! ## C3 — the chat API's cost table -/

/-- C3: `calculate_cost(tokens, model)` of `example-chat-api.py` equals
`(tokens / 1000) * rate(model)` where the rate is 0.03 for `gpt-4`, 0.01
for `gpt-4-turbo`, 0.002 for `gpt-3.5-turbo` and the default 0.03 for any
other model. -/
theorem c3_calculate_cost_matches_pricing (tokens : Rat) (model : String) :
    calculate_cost tokens model = (tokens / 1000) * specRate model := by
  simp only [calculate_cost, dictGetD, chatPricing, specRate]

/-! ## C6 — RedisCache fallbacks on client exceptions -/

/-- C6: every `RedisCache` operation, when its single underlying redis-py
client call raises, returns its fixed fallback value — `False` for
`set`/`exists`/`delete`/`expire`/`flush_db`, `None` for
`get`/`increment`/`ttl`, the empty dict for `get_info`.  Each operation is
a function of that one call outcome (no retry is modelled because none
exists in the source), and the wrapper object holds only immutable
connection configuration. -/
theorem c6_rediscache_error_fallbacks (e : String) :
    rcSet (.error e) = false ∧
    rcGet (.error e) = none ∧
    rcExists (.error e) = false ∧
    rcDelete (.error e) = false ∧
    rcIncrement (.error e) = none ∧
    rcExpire (.error e) = false ∧
    rcTtl (.error e) = none ∧
    rcFlushDb (.error e) = false ∧
    rcGetInfo (.error e) = [] :=
  ⟨rfl, rfl, rfl, rfl, rfl, rfl, rfl, rfl, rfl⟩

/-! ## C8 — the float-valued token estimations -/

/-- C8: when `tiktoken.encoding_for_model` raises, the chat API's
`count_tokens` returns `len(text.split()) * 1.3`, which is exactly the
function-calling API's unconditional `count_tokens`; on the text `"a b"`
the result is 13/5, not an integer, despite the declared `int` return
type. -/
theorem c8_count_tokens_float_fallback :
    (∀ t, chatCountTokens none t = funcCountTokens t) ∧
    chatCountTokens none "a b" = 13 / 5 ∧
    (∀ z : ℤ, chatCountTokens none "a b" ≠ (z : Rat)) := by
  have hval : chatCountTokens none "a b" = 13 / 5 := by
    have : countWords "a b" = 2 := rfl
    simp only [chatCountTokens, this]
    norm_num
  refine ⟨fun t => rfl, hval, fun z hz => ?_⟩
  rw [hval] at hz
  have h13 : (13 : Rat) = 5 * z := by linarith
  have h13' : (13 : ℤ) = 5 * z := by exact_mod_cast h13
  omega

/-- C8 witness: the fallback value on `"a b"` is 13/5, and in particular it
differs from the integer 2. -/
theorem c8_count_tokens_float_witness :
    chatCountTokens none "a b" = 13 / 5 ∧
    chatCountTokens none "a b" ≠ ((2 : ℤ) : Rat) :=
  ⟨c8_count_tokens_float_fallback.2.1, c8_count_tokens_float_fallback.2.2 2⟩

/-! ## C10 — the cache-stats hit rate -/

/-- C10: `get_cache_stats` never divides by zero — the reported hit rate is
`hits / (hits + misses)` whenever some request was counted and `0`
otherwise, and it always lies in `[0, 1]`. -/
theorem c10_hit_rate_safe (hits misses : Nat) :
    0 ≤ hitRate hits misses ∧
    hitRate hits misses ≤ 1 ∧
    (0 < hits + misses →
      hitRate hits misses = (hits : Rat) / ((hits : Rat) + (misses : Rat))) ∧
    (hits + misses = 0 → hitRate hits misses = 0) := by
  unfold hitRate
  by_cases h : 0 < hits + misses
  · have hden : (0 : Rat) < (hits : Rat) + (misses : Rat) := by
      have : (0 : Rat) < ((hits + misses : Nat) : Rat) := by exact_mod_cast h
      push_cast at this
      linarith
    rw [if_pos h]
    refine ⟨div_nonneg (by positivity) hden.le, ?_, fun _ => rfl, fun h0 => by omega⟩
    rw [div_le_one hden]
    have : (0 : Rat) ≤ (misses : Rat) := by positivity
    linarith
  · rw [if_neg h]
    exact ⟨le_refl 0, by norm_num, fun hc => absurd hc h, fun _ => rfl⟩

/-- C10 witness: with 3 hits and 1 miss the reported hit rate is 3/4. -/
theorem c10_hit_rate_witness : hitRate 3 1 = 3 / 4 := by
  have h := (c10_hit_rate_safe 3 1).2.2.1 (by norm_num)
  norm_num at h
  exact h

/-! ## C5 — `find_most_similar` (counterexample part) -/

/-- C5 counterexample: the claim says `find_most_similar` always returns at
most `top_k` results, each carrying a cosine similarity; but when the query
embedding lookup fails the function returns one error entry carrying no
similarity — with `top_k = 0` that is more than `top_k` results. -/
theorem c5_find_most_similar_counterexample :
    find_most_similar (fun _ => .error "boom") (fun _ _ => 0) "q" [] 0 =
      [.err "Failed to get query embedding: boom"] ∧
    ¬ (find_most_similar (fun _ => .error "boom") (fun _ _ => 0) "q" [] 0).length ≤ 0 :=
  ⟨rfl, by decide⟩

/-! ## C4 — cache/database coherence of the cache-aside service -/

theorem alookup_ainsert {κ α : Type} [DecidableEq κ] (k k' : κ) (v : α)
    (l : List (κ × α)) :
    alookup k' (ainsert k v l) = if k' = k then some v else alookup k' l := by
  induction l with
  | nil => simp [ainsert, alookup]
  | cons p t ih =>
      obtain ⟨k0, v0⟩ := p
      by_cases hk : k = k0
      · subst hk
        simp only [ainsert, if_pos rfl, alookup]
        by_cases h' : k' = k <;> simp [h']
      · simp only [ainsert, if_neg hk, alookup]
        by_cases h' : k' = k0
        · subst h'
          have : ¬ k' = k := fun h => hk (h ▸ rfl)
          simp [this]
        · simp [h', ih]

theorem alookup_aerase {κ α : Type} [DecidableEq κ] (k k' : κ) (l : List (κ × α)) :
    alookup k' (aerase k l) = if k' = k then none else alookup k' l := by
  induction l with
  | nil => simp [aerase, alookup]
  | cons p t ih =>
      obtain ⟨k0, v0⟩ := p
      simp only [aerase]
      by_cases hk : k0 = k
      · rw [if_pos hk, ih]
        subst hk
        by_cases h' : k' = k0
        · simp [h']
        · simp [alookup, h']
      · rw [if_neg hk]
        simp only [alookup]
        by_cases h' : k' = k0
        · subst h'
          simp [if_pos rfl, hk]
        · simp [h', ih]

theorem string_data_append (s t : String) : (s ++ t).data = s.data ++ t.data := by
  cases s
  cases t
  rfl

theorem kUser_inj {a b : String} (h : kUser a = kUser b) : a = b := by
  have hd := congrArg String.data h
  simp only [kUser, string_data_append] at hd
  have h2 := List.append_cancel_left hd
  cases a with
  | mk da =>
    cases b with
    | mk db => exact congrArg String.mk h2

theorem kUser_ne_usersAll (id : String) : kUser id ≠ kUsersAll := by
  intro h
  have hd := congrArg String.data h
  simp only [kUser, kUsersAll, string_data_append] at hd
  have h4 := congrArg (fun l => l.get? 4) hd
  simp [List.get?] at h4

theorem kUser_ne_kPosts {id : String} (hid : ':' ∉ id.data) (uid : String) :
    kUser id ≠ kPosts uid := by
  intro h
  have hd := congrArg String.data h
  simp only [kUser, kPosts, string_data_append, List.append_assoc] at hd
  have htail := List.append_cancel_left hd
  apply hid
  rw [htail]
  have : ':' ∈ (":posts" : String).data := by decide
  exact List.mem_append.mpr (Or.inr this)

theorem get_user_cases (uid : String) (s : DBState) :
    get_user uid s = s ∨
    ∃ u, alookup uid s.users = some u ∧
      get_user uid s = { s with cache := ainsert (kUser uid) (.one u) s.cache } := by
  simp only [get_user]
  split
  · exact Or.inl rfl
  · split
    · rename_i u hu
      exact Or.inr ⟨u, hu, rfl⟩
    · exact Or.inl rfl

theorem get_all_users_cases (s : DBState) :
    get_all_users s = s ∨
    get_all_users s =
      { s with cache := ainsert kUsersAll (.many (s.users.map Prod.snd)) s.cache } := by
  simp only [get_all_users]
  split
  · exact Or.inl rfl
  · exact Or.inr rfl

theorem get_user_posts_cases (uid : String) (s : DBState) :
    get_user_posts uid s = s ∨
    get_user_posts uid s =
      { s with
        cache := ainsert (kPosts uid)
          (.many ((s.posts.map Prod.snd).filter (postBelongsTo uid))) s.cache } := by
  simp only [get_user_posts]
  split
  · exact Or.inl rfl
  · exact Or.inr rfl

theorem update_user_cases (uid : String) (data : Obj) (s : DBState) :
    update_user uid data s = s ∨
    ∃ u, alookup uid s.users = some u ∧
      update_user uid data s =
        { users := ainsert uid (mergeObj u data) s.users
          posts := s.posts
          cache := aerase kUsersAll (aerase (kUser uid) s.cache) } := by
  simp only [update_user]
  split
  · exact Or.inl rfl
  · rename_i u hu
    exact Or.inr ⟨u, hu, rfl⟩

theorem stepOp_coherent {s : DBState} (hs : CacheCoherent s) (op : DBOp) :
    CacheCoherent (stepOp s op) := by
  cases op with
  | getUser uid =>
      rcases get_user_cases uid s with h | ⟨u, hu, h⟩
      · simpa [stepOp, h] using hs
      · intro id v hid hc
        simp only [stepOp, h] at hc ⊢
        rw [alookup_ainsert] at hc
        split at hc
        · rename_i hkey
          have hids : id = uid := kUser_inj hkey
          subst hids
          exact ⟨u, hu, by injection hc with h'; exact h'.symm⟩
        · exact hs id v hid hc
  | getAllUsers =>
      rcases get_all_users_cases s with h | h
      · simpa [stepOp, h] using hs
      · intro id v hid hc
        simp only [stepOp, h] at hc ⊢
        rw [alookup_ainsert, if_neg (kUser_ne_usersAll id)] at hc
        exact hs id v hid hc
  | getUserPosts uid =>
      rcases get_user_posts_cases uid s with h | h
      · simpa [stepOp, h] using hs
      · intro id v hid hc
        simp only [stepOp, h] at hc ⊢
        rw [alookup_ainsert, if_neg (kUser_ne_kPosts hid uid)] at hc
        exact hs id v hid hc
  | updateUser uid data =>
      rcases update_user_cases uid data s with h | ⟨u, hu, h⟩
      · simpa [stepOp, h] using hs
      · intro id v hid hc
        simp only [stepOp, h] at hc ⊢
        rw [alookup_aerase, if_neg (kUser_ne_usersAll id), alookup_aerase] at hc
        split at hc
        · exact absurd hc (by simp)
        · rename_i hkey
          have hne : id ≠ uid := fun he => hkey (he ▸ rfl)
          obtain ⟨u', hdb, hv⟩ := hs id v hid hc
          exact ⟨u', by rw [alookup_ainsert, if_neg hne]; exact hdb, hv⟩

theorem foldl_coherent (ops : List DBOp) {s : DBState} (hs : CacheCoherent s) :
    CacheCoherent (ops.foldl stepOp s) := by
  induction ops generalizing s with
  | nil => exact hs
  | cons op rest ih => exact ih (stepOp_coherent hs op)

/-- C4 counterexample: the claim quantifies over every cache entry whose
key has the shape `user:{id}`, but `get_user_posts` stores the posts list
under `user:{id}:posts`, which has that shape with the id `"1:posts"` —
and `fake_database["users"]` holds no record for `"1:posts"`. -/
theorem c4_cache_key_collision_counterexample :
    kUser "1:posts" = kPosts "1" ∧
    alookup (kUser "1:posts") (runOps [.getUserPosts "1"]).cache =
      some (.many [postRec1, postRec3]) ∧
    alookup "1:posts" (runOps [.getUserPosts "1"]).users = none :=
  ⟨by decide, rfl, rfl⟩

/-- C4 amended: after any sequence of `get_user`, `get_all_users`,
`get_user_posts` and `update_user` operations, every cache entry under a
key `user:{id}` whose id contains no colon (i.e. excluding the
`user:{id}:posts` entries written by `get_user_posts`) equals the record
`fake_database["users"][id]`: reads populate the cache from the database
on a miss and `update_user` deletes `user:{id}` and `users:all`. -/
theorem c4_cache_coherent_amended (ops : List DBOp) (id : String) (v : CVal)
    (hid : ':' ∉ id.data)
    (hc : alookup (kUser id) (runOps ops).cache = some v) :
    ∃ u, alookup id (runOps ops).users = some u ∧ v = .one u := by
  have hinit : CacheCoherent initState := by
    intro id v _ hc
    simp [initState, alookup] at hc
  exact foldl_coherent ops hinit id v hid hc

/-- C4 witness: after the single operation `get_user("1")` the cache holds
`user:1 ↦ fake_database["users"]["1"]`, and the amended theorem recovers
that record from the database. -/
theorem c4_cache_coherent_witness :
    ∃ u, alookup "1" (runOps [.getUser "1"]).users = some u ∧
      CVal.one userRec1 = .one u :=
  c4_cache_coherent_amended [.getUser "1"] "1" (.one userRec1) (by decide) rfl

/-- C5 amended: when the query embedding succeeds, `find_most_similar`
returns at most `top_k` results, each carrying the library similarity
between the query embedding and that document's embedding, sorted in
nonincreasing order of similarity, with documents whose embedding lookup
returned an error omitted; when the query embedding lookup itself fails,
it instead returns the single error entry. -/
theorem c5_find_most_similar_amended (emb : String → Except String (List Rat))
    (sim : List Rat → List Rat → Rat) (q : String) (docs : List String) (k : Nat) :
    (∀ e, emb q = .error e →
      find_most_similar emb sim q docs k =
        [.err ("Failed to get query embedding: " ++ e)]) ∧
    (∀ qv, emb q = .ok qv →
      (find_most_similar emb sim q docs k).length ≤ k ∧
      List.Sorted (fun a b : FMSResult => b.simval ≤ a.simval)
        (find_most_similar emb sim q docs k) ∧
      (∀ r ∈ find_most_similar emb sim q docs k,
        ∃ d dv i, r = .ok d (sim qv dv) i ∧ emb d = .ok dv ∧
          docs.get? i = some d)) := by
  constructor
  · intro e he
    simp [find_most_similar, he]
  · intro qv hq
    simp only [find_most_similar, hq]
    refine ⟨?_, ?_, ?_⟩
    · rw [List.length_map]
      exact List.length_take_le _ _
    · have hsorted := List.sorted_insertionSort simGE
        (docs.enum.filterMap
          (fun p =>
            match emb p.2 with
            | .error _ => none
            | .ok dv => some (p.2, sim qv dv, p.1)))
      have htake := hsorted.sublist (List.take_sublist k _)
      rw [List.Sorted, List.pairwise_map]
      exact htake
    · intro r hr
      rw [List.mem_map] at hr
      obtain ⟨e, he, rfl⟩ := hr
      have he1 : e ∈ List.insertionSort simGE
          (docs.enum.filterMap
            (fun p =>
              match emb p.2 with
              | .error _ => none
              | .ok dv => some (p.2, sim qv dv, p.1))) :=
        List.mem_of_mem_take he
      have he2 := (List.perm_insertionSort simGE _).mem_iff.mp he1
      rw [List.mem_filterMap] at he2
      obtain ⟨⟨i, d⟩, hmem, hfe⟩ := he2
      cases hembd : emb d with
      | error msg => rw [hembd] at hfe; exact absurd hfe (by simp)
      | ok dv =>
        rw [hembd] at hfe
        injection hfe with hfe
        subst hfe
        exact ⟨d, dv, i, rfl, hembd, List.mk_mem_enum_iff_get?.mp hmem⟩

/-- C5 witness: the amended theorem applied to a concrete embedding
function that succeeds on the query and two documents with `top_k = 1`. -/
theorem c5_find_most_similar_witness :
    (find_most_similar (fun _ => .ok [1]) (fun _ _ => 1) "q" ["d1", "d2"] 1).length ≤ 1 :=
  ((c5_find_most_similar_amended (fun _ => .ok [1]) (fun _ _ => 1) "q"
    ["d1", "d2"] 1).2 [1] rfl).1

/-! ## C9 — the RedisCache store/parse round trip

The lemmas below establish that the embedded `json.loads` parses the
embedded `json.dumps` output back to the same value. -/

theorem hexVal_hexChar {d : Nat} (h : d < 16) : hexVal (hexChar d) = some d := by
  interval_cases d <;> decide

theorem digitChar_isDigit {d : Nat} (h : d < 10) : (Nat.digitChar d).isDigit = true := by
  interval_cases d <;> decide

theorem digitChar_val {d : Nat} (h : d < 10) : (Nat.digitChar d).toNat - 48 = d := by
  interval_cases d <;> decide

theorem digit_char_facts {c : Char} (h : c.isDigit = true) :
    c ≠ '-' ∧ isJsonWs c = false ∧ c ≠ ']' ∧ c ≠ '}' ∧ c ≠ 'n' ∧ c ≠ 't' ∧
      c ≠ 'f' ∧ c ≠ '"' ∧ c ≠ '[' ∧ c ≠ '{' := by
  simp only [Char.isDigit, Bool.and_eq_true, decide_eq_true_eq] at h
  obtain ⟨h1, h2⟩ := h
  refine ⟨?_, ?_, ?_, ?_, ?_, ?_, ?_, ?_, ?_, ?_⟩
  · rintro rfl; exact absurd h1 (by decide)
  · simp only [isJsonWs, Bool.or_eq_false_iff, decide_eq_false_iff_not]
    refine ⟨⟨⟨?_, ?_⟩, ?_⟩, ?_⟩ <;> (rintro rfl; exact absurd h1 (by decide))
  · rintro rfl; exact absurd h2 (by decide)
  · rintro rfl; exact absurd h2 (by decide)
  · rintro rfl; exact absurd h2 (by decide)
  · rintro rfl; exact absurd h2 (by decide)
  · rintro rfl; exact absurd h2 (by decide)
  · rintro rfl; exact absurd h1 (by decide)
  · rintro rfl; exact absurd h2 (by decide)
  · rintro rfl; exact absurd h2 (by decide)

theorem parseStrBody_print (l : List Char) (rest : List Char) :
    ∀ f : Nat, l.length < f →
    parseStrBody f ((l.map escapeChar).flatten ++ '"' :: rest) = some (l, rest) := by
  induction l with
  | nil =>
      intro f hf
      cases f with
      | zero => omega
      | succ g => simp [parseStrBody]
  | cons c t ih =>
      intro f hf
      cases f with
      | zero => omega
      | succ g =>
      have hg : t.length < g := by
        simp only [List.length_cons] at hf
        omega
      have iht := ih g hg
      rw [List.map_cons, List.flatten_cons, List.append_assoc]
      by_cases h1 : c = '"'
      · subst h1
        simp [escapeChar, parseStrBody, iht]
      · by_cases h2 : c = '\\'
        · subst h2
          simp [escapeChar, parseStrBody, iht]
        · by_cases h3 : c = '\n'
          · subst h3
            simp [escapeChar, parseStrBody, iht]
          · by_cases h4 : c = '\t'
            · subst h4
              simp [escapeChar, parseStrBody, iht]
            · by_cases h5 : c = '\r'
              · subst h5
                simp [escapeChar, parseStrBody, iht]
              · by_cases h6 : c.toNat = 8
                · have hc : c = Char.ofNat 8 := by
                    rw [← h6, Char.ofNat_toNat]
                  rw [show escapeChar c = ['\\', 'b'] by
                    simp [escapeChar, h1, h2, h3, h4, h5, h6]]
                  simp only [List.cons_append, List.nil_append]
                  simp [parseStrBody, iht, hc]
                · by_cases h7 : c.toNat = 12
                  · have hc : c = Char.ofNat 12 := by
                      rw [← h7, Char.ofNat_toNat]
                    rw [show escapeChar c = ['\\', 'f'] by
                      simp [escapeChar, h1, h2, h3, h4, h5, h6, h7]]
                    simp only [List.cons_append, List.nil_append]
                    simp [parseStrBody, iht, hc]
                  · by_cases h8 : c.toNat < 32
                    · rw [show escapeChar c =
                        ['\\', 'u', '0', '0', hexChar (c.toNat / 16), hexChar (c.toNat % 16)] by
                        simp [escapeChar, h1, h2, h3, h4, h5, h6, h7, h8]]
                      have hdiv : c.toNat / 16 < 16 := by omega
                      have hmod : c.toNat % 16 < 16 := Nat.mod_lt _ (by norm_num)
                      simp only [List.cons_append, List.nil_append]
                      simp [parseStrBody, hexVal_hexChar hdiv, hexVal_hexChar hmod,
                        show hexVal '0' = some 0 from rfl, iht]
                      rw [show c.toNat / 16 * 16 + c.toNat % 16 = c.toNat by omega,
                        Char.ofNat_toNat]
                    · rw [show escapeChar c = [c] by
                        simp [escapeChar, h1, h2, h3, h4, h5, h6, h7, h8]]
                      simp only [List.cons_append, List.nil_append]
                      simp [parseStrBody, h1, h2, h8, iht]

theorem natChars_all_digits (n : Nat) : ∀ c ∈ natChars n, c.isDigit = true := by
  intro c hc
  unfold natChars at hc
  split at hc
  · simp at hc
    subst hc
    decide
  · rw [List.mem_map] at hc
    obtain ⟨d, hd, rfl⟩ := hc
    rw [List.mem_reverse] at hd
    exact digitChar_isDigit (Nat.digits_lt_base (by norm_num) hd)

theorem natChars_ne_nil (n : Nat) : natChars n ≠ [] := by
  unfold natChars
  split
  · simp
  · rename_i h
    simp only [ne_eq, List.map_eq_nil_iff, List.reverse_eq_nil_iff]
    exact Nat.digits_ne_nil_iff_ne_zero.mpr h

theorem digitsVal_natChars (n : Nat) : digitsVal (natChars n) = n := by
  unfold natChars
  split
  · rename_i h
    subst h
    decide
  · rename_i h
    rw [List.map_reverse]
    unfold digitsVal
    rw [List.foldl_reverse]
    have key : ∀ ds : List Nat, (∀ d ∈ ds, d < 10) →
        List.foldr (fun x y => 10 * y + (x.toNat - 48)) 0 (ds.map Nat.digitChar) =
          Nat.ofDigits 10 ds := by
      intro ds
      induction ds with
      | nil => intro _; simp [Nat.ofDigits]
      | cons d tl ihd =>
          intro hmem
          rw [List.map_cons, List.foldr_cons,
            ihd (fun x hx => hmem x (List.mem_cons_of_mem d hx)),
            Nat.ofDigits_cons, digitChar_val (hmem d (List.mem_cons_self d tl))]
          ring
    rw [key (Nat.digits 10 n) (fun d hd => Nat.digits_lt_base (by norm_num) hd),
      Nat.ofDigits_digits]

theorem takeWhile_append_all {p : Char → Bool} (l1 l2 : List Char)
    (h1 : ∀ c ∈ l1, p c = true) (h3 : l2.head?.all (fun c => !p c) = true) :
    (l1 ++ l2).takeWhile p = l1 ∧ (l1 ++ l2).dropWhile p = l2 := by
  induction l1 with
  | nil =>
      cases l2 with
      | nil => simp
      | cons c t =>
          simp only [Option.all_some, List.head?] at h3
          have hpc : p c = false := by simpa using h3
          simp [List.takeWhile_cons, List.dropWhile_cons, hpc]
  | cons c t ih =>
      have hc := h1 c (List.mem_cons_self c t)
      have iht := ih (fun x hx => h1 x (List.mem_cons_of_mem c hx))
      simp [List.takeWhile_cons, List.dropWhile_cons, hc, iht.1, iht.2]

theorem parseNatRun_print (n : Nat) (rest : List Char)
    (hrest : rest.head?.all (fun c => !c.isDigit) = true) :
    parseNatRun (natChars n ++ rest) = some (n, rest) := by
  obtain ⟨htake, hdrop⟩ :=
    takeWhile_append_all (p := Char.isDigit) (natChars n) rest
      (natChars_all_digits n) hrest
  unfold parseNatRun
  rw [htake, hdrop]
  simp only [List.isEmpty_iff]
  rw [if_neg (natChars_ne_nil n)]
  rw [digitsVal_natChars]

theorem parseIntChars_print (n : Int) (rest : List Char)
    (hrest : rest.head?.all (fun c => !c.isDigit) = true) :
    parseIntChars (intChars n ++ rest) = some (n, rest) := by
  unfold intChars
  split
  · rename_i hn
    simp only [List.cons_append]
    rw [show parseIntChars ('-' :: (natChars n.natAbs ++ rest)) =
        (parseNatRun (natChars n.natAbs ++ rest)).map (fun p => (-(p.1 : Int), p.2))
      from rfl]
    rw [parseNatRun_print n.natAbs rest hrest]
    simp only [Option.map_some']
    have : -((n.natAbs : Int)) = n := by omega
    rw [this]
  · rename_i hn
    obtain ⟨c, t, hct⟩ : ∃ c t, natChars n.natAbs = c :: t := by
      cases h : natChars n.natAbs with
      | nil => exact absurd h (natChars_ne_nil _)
      | cons c t => exact ⟨c, t, rfl⟩
    have hcd : c.isDigit = true :=
      natChars_all_digits n.natAbs c (hct ▸ List.mem_cons_self c t)
    have hcm : c ≠ '-' := (digit_char_facts hcd).1
    rw [hct]
    simp only [List.cons_append]
    rw [parseIntChars.eq_def]
    split
    · rename_i r heq
      injection heq with heq1 _
      exact absurd heq1 hcm
    · rw [← List.cons_append, ← hct, parseNatRun_print n.natAbs rest hrest]
      simp only [Option.map_some']
      have : ((n.natAbs : Int)) = n := by omega
      rw [this]

theorem stringMk_data (s : String) : String.mk s.data = s := by
  cases s
  rfl

theorem skipWs_not_ws {c : Char} (h : isJsonWs c = false) (cs : List Char) :
    skipWs (c :: cs) = c :: cs := by
  simp [skipWs, List.dropWhile_cons, h]

theorem skipWs_space (cs : List Char) : skipWs (' ' :: cs) = skipWs cs := rfl

theorem parseValF_congr (f : Nat) {a b : List Char} (h : skipWs a = skipWs b) :
    parseValF f a = parseValF f b := by
  cases f with
  | zero => rfl
  | succ g =>
      simp only [parseValF]
      rw [h]

theorem parseMemberF_congr (f : Nat) {a b : List Char} (h : skipWs a = skipWs b) :
    parseMemberF f a = parseMemberF f b := by
  cases f with
  | zero => rfl
  | succ g =>
      simp only [parseMemberF]
      rw [h]

theorem needV_pos (v : J) : 1 ≤ needV v := by
  cases v with
  | null => simp [needV]
  | bool b => simp [needV]
  | int n => simp [needV]
  | str s => simp only [needV]; omega
  | arr l => cases l <;> (simp only [needV]; omega)
  | obj l => cases l <;> (simp only [needV]; omega)

theorem needArr_pos (vs : List J) : 1 ≤ needArr vs := by
  cases vs <;> (simp only [needArr]; omega)

theorem needMem_pos (m : String × J) : 1 ≤ needMem m := by
  obtain ⟨k, v⟩ := m
  simp only [needMem]
  omega

theorem needObj_pos (ms : List (String × J)) : 1 ≤ needObj ms := by
  cases ms <;> (simp only [needObj]; omega)

theorem intChars_head (n : Int) :
    ∃ c t, intChars n = c :: t ∧ (c = '-' ∨ c.isDigit = true) := by
  unfold intChars
  split
  · exact ⟨'-', natChars n.natAbs, rfl, Or.inl rfl⟩
  · obtain ⟨c, t, hct⟩ : ∃ c t, natChars n.natAbs = c :: t := by
      cases h : natChars n.natAbs with
      | nil => exact absurd h (natChars_ne_nil _)
      | cons c t => exact ⟨c, t, rfl⟩
    refine ⟨c, t, hct, Or.inr ?_⟩
    exact natChars_all_digits n.natAbs c (by rw [hct]; exact List.mem_cons_self c t)

theorem printVal_head (v : J) :
    ∃ c t, printVal v = c :: t ∧ isJsonWs c = false ∧ c ≠ ']' ∧ c ≠ '}' := by
  cases v with
  | null =>
      exact ⟨'n', ['u', 'l', 'l'], by simp only [printVal], by decide, by decide,
        by decide⟩
  | bool b =>
      cases b with
      | true =>
          exact ⟨'t', ['r', 'u', 'e'], by simp only [printVal], by decide, by decide,
            by decide⟩
      | false =>
          exact ⟨'f', ['a', 'l', 's', 'e'], by simp only [printVal], by decide,
            by decide, by decide⟩
  | int n =>
      obtain ⟨c, t, hct, hcc⟩ := intChars_head n
      have facts : isJsonWs c = false ∧ c ≠ ']' ∧ c ≠ '}' := by
        rcases hcc with rfl | hd
        · exact ⟨by decide, by decide, by decide⟩
        · have fs := digit_char_facts hd
          exact ⟨fs.2.1, fs.2.2.1, fs.2.2.2.1⟩
      exact ⟨c, t, by simp [printVal, hct], facts.1, facts.2.1, facts.2.2⟩
  | str s =>
      exact ⟨'"', (s.data.map escapeChar).flatten ++ ['"'],
        by simp [printVal, strChars], by decide, by decide, by decide⟩
  | arr l =>
      cases l with
      | nil => exact ⟨'[', [']'], by simp [printVal], by decide, by decide, by decide⟩
      | cons v vs =>
          exact ⟨'[', printVal v ++ printArrRest vs ++ [']'],
            by simp [printVal], by decide, by decide, by decide⟩
  | obj l =>
      cases l with
      | nil => exact ⟨'{', ['}'], by simp [printVal], by decide, by decide, by decide⟩
      | cons m ms =>
          exact ⟨'{', printMember m ++ printObjRest ms ++ ['}'],
            by simp [printVal], by decide, by decide, by decide⟩

theorem printMember_head (m : String × J) :
    ∃ c t, printMember m = c :: t ∧ isJsonWs c = false ∧ c ≠ '}' := by
  obtain ⟨k, v⟩ := m
  exact ⟨'"', (k.data.map escapeChar).flatten ++ '"' :: ':' :: ' ' :: printVal v,
    by simp [printMember, strChars], by decide, by decide⟩

theorem arrRest_head (vs : List J) (rest : List Char) :
    (printArrRest vs ++ ']' :: rest).head?.all (fun c => !c.isDigit) = true := by
  cases vs with
  | nil => simp [printArrRest]
  | cons v vs => simp [printArrRest]

theorem objRest_head (ms : List (String × J)) (rest : List Char) :
    (printObjRest ms ++ '}' :: rest).head?.all (fun c => !c.isDigit) = true := by
  cases ms with
  | nil => simp [printObjRest]
  | cons m ms => simp [printObjRest]

theorem parseValF_number (g : Nat) (c : Char) (t : List Char)
    (hws : isJsonWs c = false)
    (h1 : ¬ c = 'n') (h2 : ¬ c = 't') (h3 : ¬ c = 'f') (h4 : ¬ c = '"')
    (h5 : ¬ c = '[') (h6 : ¬ c = '{') (h7 : c = '-' ∨ c.isDigit = true) :
    parseValF (g + 1) (c :: t) =
      (parseIntChars (c :: t)).map (fun p => (.int p.1, p.2)) := by
  simp only [parseValF]
  rw [skipWs_not_ws hws]
  simp only [h1, h2, h3, h4, h5, h6, h7, if_false, if_true, if_neg, if_pos]

theorem parseValF_strDisp (g : Nat) (X : List Char) :
    parseValF (g + 1) ('"' :: X) =
      (parseStrBody g X).map (fun p => (.str (String.mk p.1), p.2)) := rfl

theorem parseValF_arrDisp (g : Nat) (c0 : Char) (Y : List Char)
    (hws : isJsonWs c0 = false) (hne : ¬ c0 = ']') :
    parseValF (g + 1) ('[' :: c0 :: Y) =
      (match parseValF g (c0 :: Y) with
       | none => none
       | some (v, r1) =>
         match parseArrTailF g r1 with
         | none => none
         | some (vs, r2) => some (.arr (v :: vs), r2)) := by
  simp only [parseValF]
  rw [skipWs_not_ws (by decide : isJsonWs '[' = false)]
  simp only []
  rw [skipWs_not_ws hws]
  simp [hne]

theorem parseValF_objDisp (g : Nat) (c0 : Char) (Y : List Char)
    (hws : isJsonWs c0 = false) (hne : ¬ c0 = '}') :
    parseValF (g + 1) ('{' :: c0 :: Y) =
      (match parseMemberF g (c0 :: Y) with
       | none => none
       | some (m, r1) =>
         match parseObjTailF g r1 with
         | none => none
         | some (ms, r2) => some (.obj (m :: ms), r2)) := by
  simp only [parseValF]
  rw [skipWs_not_ws (by decide : isJsonWs '{' = false)]
  simp only []
  rw [skipWs_not_ws hws]
  simp [hne]

theorem parseArrTailF_comma (g : Nat) (Y : List Char) :
    parseArrTailF (g + 1) (',' :: ' ' :: Y) =
      (match parseValF g (' ' :: Y) with
       | none => none
       | some (v, r1) =>
         match parseArrTailF g r1 with
         | none => none
         | some (vs, r2) => some (v :: vs, r2)) := rfl

theorem parseObjTailF_comma (g : Nat) (Y : List Char) :
    parseObjTailF (g + 1) (',' :: ' ' :: Y) =
      (match parseMemberF g (' ' :: Y) with
       | none => none
       | some (m, r1) =>
         match parseObjTailF g r1 with
         | none => none
         | some (ms, r2) => some (m :: ms, r2)) := rfl

theorem parseMemberF_quote (g : Nat) (Y : List Char) :
    parseMemberF (g + 1) ('"' :: Y) =
      (match parseStrBody g Y with
       | none => none
       | some (key, r1) =>
         match skipWs r1 with
         | ':' :: r2 =>
           (match parseValF g r2 with
            | none => none
            | some (v, r3) => some ((String.mk key, v), r3))
         | _ => none) := rfl

theorem parse_print_fuel (f : Nat) :
    (∀ v rest, needV v ≤ f → rest.head?.all (fun c => !c.isDigit) = true →
       parseValF f (printVal v ++ rest) = some (v, rest)) ∧
    (∀ vs rest, needArr vs ≤ f →
       parseArrTailF f (printArrRest vs ++ ']' :: rest) = some (vs, rest)) ∧
    (∀ m rest, needMem m ≤ f → rest.head?.all (fun c => !c.isDigit) = true →
       parseMemberF f (printMember m ++ rest) = some (m, rest)) ∧
    (∀ ms rest, needObj ms ≤ f →
       parseObjTailF f (printObjRest ms ++ '}' :: rest) = some (ms, rest)) := by
  induction f with
  | zero =>
      refine ⟨fun v rest hf _ => ?_, fun vs rest hf => ?_,
        fun m rest hf _ => ?_, fun ms rest hf => ?_⟩
      · exact absurd hf (by have := needV_pos v; omega)
      · exact absurd hf (by have := needArr_pos vs; omega)
      · exact absurd hf (by have := needMem_pos m; omega)
      · exact absurd hf (by have := needObj_pos ms; omega)
  | succ g IH =>
      obtain ⟨IHv, IHa, IHm, IHo⟩ := IH
      refine ⟨?_, ?_, ?_, ?_⟩
      · intro v rest hf hrest
        cases v with
        | null =>
            rw [show printVal .null = ['n', 'u', 'l', 'l'] from by simp only [printVal]]
            rfl
        | bool b =>
            cases b with
            | true =>
                rw [show printVal (.bool true) = ['t', 'r', 'u', 'e'] from by
                  simp only [printVal]]
                rfl
            | false =>
                rw [show printVal (.bool false) = ['f', 'a', 'l', 's', 'e'] from by
                  simp only [printVal]]
                rfl
        | int n =>
            obtain ⟨c, t, hct, hcc⟩ := intChars_head n
            have facts : isJsonWs c = false ∧ ¬ c = 'n' ∧ ¬ c = 't' ∧ ¬ c = 'f' ∧
                ¬ c = '"' ∧ ¬ c = '[' ∧ ¬ c = '{' := by
              rcases hcc with rfl | hd
              · exact ⟨by decide, by decide, by decide, by decide, by decide, by decide,
                  by decide⟩
              · have fs := digit_char_facts hd
                exact ⟨fs.2.1, fs.2.2.2.2.1, fs.2.2.2.2.2.1, fs.2.2.2.2.2.2.1,
                  fs.2.2.2.2.2.2.2.1, fs.2.2.2.2.2.2.2.2.1, fs.2.2.2.2.2.2.2.2.2⟩
            rw [show printVal (.int n) = intChars n from by simp [printVal], hct,
              List.cons_append]
            rw [parseValF_number g c (t ++ rest) facts.1 facts.2.1 facts.2.2.1
              facts.2.2.2.1 facts.2.2.2.2.1 facts.2.2.2.2.2.1 facts.2.2.2.2.2.2 hcc]
            rw [← List.cons_append, ← hct, parseIntChars_print n rest hrest]
            rfl
        | str s =>
            have hlen : s.data.length < g := by
              simp only [needV] at hf
              omega
            rw [show printVal (.str s) = '"' :: ((s.data.map escapeChar).flatten ++ ['"'])
              from by simp [printVal, strChars]]
            simp only [List.cons_append, List.append_assoc, List.nil_append]
            rw [parseValF_strDisp g]
            rw [parseStrBody_print s.data rest g hlen]
            simp only [Option.map_some', stringMk_data]
        | arr l =>
            cases l with
            | nil =>
                rw [show printVal (.arr []) = ['[', ']'] from by simp [printVal]]
                rfl
            | cons v vs =>
                obtain ⟨c0, t0, hct0, hws0, hne0, _⟩ := printVal_head v
                have hfv : needV v ≤ g := by
                  simp only [needV] at hf
                  have := needArr_pos vs
                  omega
                have hfa : needArr vs ≤ g := by
                  simp only [needV] at hf
                  have := needV_pos v
                  omega
                rw [show printVal (.arr (v :: vs)) =
                    '[' :: (printVal v ++ printArrRest vs ++ [']']) from by simp [printVal]]
                rw [hct0]
                simp only [List.cons_append, List.append_assoc, List.nil_append]
                rw [parseValF_arrDisp g c0 _ hws0 hne0]
                rw [← List.cons_append, ← hct0]
                rw [IHv v (printArrRest vs ++ ']' :: rest) hfv (arrRest_head vs rest)]
                simp only []
                rw [IHa vs rest hfa]
        | obj l =>
            cases l with
            | nil =>
                rw [show printVal (.obj []) = ['{', '}'] from by simp [printVal]]
                rfl
            | cons m ms =>
                obtain ⟨c0, t0, hct0, hws0, hne0⟩ := printMember_head m
                have hfm : needMem m ≤ g := by
                  simp only [needV] at hf
                  have := needObj_pos ms
                  omega
                have hfo : needObj ms ≤ g := by
                  simp only [needV] at hf
                  have := needMem_pos m
                  omega
                rw [show printVal (.obj (m :: ms)) =
                    '{' :: (printMember m ++ printObjRest ms ++ ['}']) from by
                  simp [printVal]]
                rw [hct0]
                simp only [List.cons_append, List.append_assoc, List.nil_append]
                rw [parseValF_objDisp g c0 _ hws0 hne0]
                rw [← List.cons_append, ← hct0]
                rw [IHm m (printObjRest ms ++ '}' :: rest) hfm (objRest_head ms rest)]
                simp only []
                rw [IHo ms rest hfo]
      · intro vs rest hf
        cases vs with
        | nil =>
            rw [show printArrRest [] = ([] : List Char) from by simp [printArrRest]]
            rfl
        | cons v vs =>
            have hfv : needV v ≤ g := by
              simp only [needArr] at hf
              have := needArr_pos vs
              omega
            have hfa : needArr vs ≤ g := by
              simp only [needArr] at hf
              have := needV_pos v
              omega
            rw [show printArrRest (v :: vs) = ',' :: ' ' :: (printVal v ++ printArrRest vs)
              from by simp [printArrRest]]
            simp only [List.cons_append, List.append_assoc]
            rw [parseArrTailF_comma g]
            rw [parseValF_congr g (skipWs_space (printVal v ++ (printArrRest vs ++ ']' :: rest)))]
            rw [IHv v (printArrRest vs ++ ']' :: rest) hfv (arrRest_head vs rest)]
            simp only []
            rw [IHa vs rest hfa]
      · intro m rest hf hrest
        obtain ⟨k, v⟩ := m
        have hklen : k.data.length < g := by
          simp only [needMem] at hf
          have := needV_pos v
          omega
        have hfv : needV v ≤ g := by
          simp only [needMem] at hf
          omega
        rw [show printMember (k, v) =
            '"' :: ((k.data.map escapeChar).flatten ++ '"' :: ':' :: ' ' :: printVal v)
          from by simp [printMember, strChars]]
        simp only [List.cons_append, List.append_assoc]
        rw [parseMemberF_quote g]
        rw [parseStrBody_print k.data (':' :: ' ' :: (printVal v ++ rest)) g hklen]
        simp only []
        rw [skipWs_not_ws (by decide : isJsonWs ':' = false)]
        simp only []
        rw [parseValF_congr g (skipWs_space (printVal v ++ rest))]
        rw [IHv v rest hfv hrest]
      · intro ms rest hf
        cases ms with
        | nil =>
            rw [show printObjRest [] = ([] : List Char) from by simp [printObjRest]]
            rfl
        | cons m ms =>
            have hfm : needMem m ≤ g := by
              simp only [needObj] at hf
              have := needObj_pos ms
              omega
            have hfo : needObj ms ≤ g := by
              simp only [needObj] at hf
              have := needMem_pos m
              omega
            rw [show printObjRest (m :: ms) = ',' :: ' ' :: (printMember m ++ printObjRest ms)
              from by simp [printObjRest]]
            simp only [List.cons_append, List.append_assoc]
            rw [parseObjTailF_comma g]
            rw [parseMemberF_congr g (skipWs_space (printMember m ++ (printObjRest ms ++ '}' :: rest)))]
            rw [IHm m (printObjRest ms ++ '}' :: rest) hfm (objRest_head ms rest)]
            simp only []
            rw [IHo ms rest hfo]

theorem escLen_ge (l : List Char) : l.length ≤ ((l.map escapeChar).flatten).length := by
  induction l with
  | nil => simp
  | cons c t ih =>
      simp only [List.map_cons, List.flatten_cons, List.length_append, List.length_cons]
      have h1 : 1 ≤ (escapeChar c).length := by
        unfold escapeChar
        split_ifs <;> simp
      omega

mutual

theorem needV_le (v : J) : needV v ≤ (printVal v).length + 1 := by
  match v with
  | .null => simp [needV, printVal]
  | .bool true => simp [needV, printVal]
  | .bool false => simp [needV, printVal]
  | .int n => simp [needV, printVal]
  | .str s =>
      have h := escLen_ge s.data
      have hs : s.length = s.data.length := rfl
      simp only [needV, printVal, strChars, List.length_cons, List.length_append] at h ⊢
      simp at h ⊢
      omega
  | .arr [] => simp [needV, printVal]
  | .arr (v :: vs) =>
      have h1 := needV_le v
      have h2 := needArr_le vs
      simp only [needV, printVal, List.length_cons, List.length_append]
      simp at h1 h2 ⊢
      omega
  | .obj [] => simp [needV, printVal]
  | .obj (m :: ms) =>
      have h1 := needMem_le m
      have h2 := needObj_le ms
      simp only [needV, printVal, List.length_cons, List.length_append]
      simp at h1 h2 ⊢
      omega

theorem needArr_le (vs : List J) : needArr vs ≤ (printArrRest vs).length + 1 := by
  match vs with
  | [] => simp [needArr, printArrRest]
  | v :: vs =>
      have h1 := needV_le v
      have h2 := needArr_le vs
      simp only [needArr, printArrRest, List.length_cons, List.length_append]
      omega

theorem needMem_le (m : String × J) : needMem m ≤ (printMember m).length + 1 := by
  match m with
  | (k, v) =>
      have h1 := needV_le v
      have h2 := escLen_ge k.data
      have hs : k.length = k.data.length := rfl
      simp only [needMem, printMember, strChars, List.length_append, List.length_cons] at h2 ⊢
      simp at h2 ⊢
      omega

theorem needObj_le (ms : List (String × J)) : needObj ms ≤ (printObjRest ms).length + 1 := by
  match ms with
  | [] => simp [needObj, printObjRest]
  | m :: ms =>
      have h1 := needMem_le m
      have h2 := needObj_le ms
      simp only [needObj, printObjRest, List.length_cons, List.length_append]
      omega

end

theorem loadsChars_printVal (v : J) : loadsChars (printVal v) = some v := by
  unfold loadsChars
  have hle := needV_le v
  have h := (parse_print_fuel ((printVal v).length + 1)).1 v [] (by omega) (by simp)
  rw [List.append_nil] at h
  rw [h]
  rfl

/-- C9: for every dict or list value, `RedisCache.get` after
`RedisCache.set` (working connection, TTL expiry out of scope) returns an
equal value — serialisation (`json.dumps`) followed by deserialisation
(`json.loads`) is the identity on dicts and lists; but a string value that
itself parses as JSON comes back as the parsed value: `"1"` is stored raw
and read back as the integer 1. -/
theorem c9_rediscache_roundtrip :
    (∀ (st : RStore) (key : String) (v : J), isDictOrList v = true →
        rgetStore (rsetStore st key v).1 key = some v) ∧
    rgetStore (rsetStore [] "k" (.str "1")).1 "k" = some (.int 1) ∧
    (J.int 1 ≠ J.str "1") := by
  refine ⟨?_, rfl, fun h => J.noConfusion h⟩
  intro st key v hv
  cases v with
  | null => simp [isDictOrList] at hv
  | bool b => simp [isDictOrList] at hv
  | int n => simp [isDictOrList] at hv
  | str s => simp [isDictOrList] at hv
  | arr l =>
      have hloads := loadsChars_printVal (J.arr l)
      simp only [rsetStore, serializeValue, rgetStore, alookup_ainsert]
      simp [hloads]
  | obj l =>
      have hloads := loadsChars_printVal (J.obj l)
      simp only [rsetStore, serializeValue, rgetStore, alookup_ainsert]
      simp [hloads]

/-- C9 witness: the round trip evaluated on the dict value
`{"a": 1, "b": [true, null, "x"]}` under key `"k"` on an empty store. -/
theorem c9_rediscache_roundtrip_witness :
    rgetStore (rsetStore [] "k"
        (.obj [("a", .int 1), ("b", .arr [.bool true, .null, .str "x"])])).1 "k" =
      some (.obj [("a", .int 1), ("b", .arr [.bool true, .null, .str "x"])]) :=
  c9_rediscache_roundtrip.1 [] "k"
    (.obj [("a", .int 1), ("b", .arr [.bool true, .null, .str "x"])]) rfl

end Spinbox
